import Mathlib

/-!
Verification of the text-extraction, chunking and rank-fusion cores of the
mcp-apple-notes server. JavaScript strings are modelled as lists of Unicode
code points; byte buffers as lists of naturals; floating-point score
arithmetic as exact rational arithmetic.
-/

/-- Characters matched by the JavaScript regex whitespace class and removed by
String.prototype.trim. -/
def jsWhitespace (c : Char) : Bool :=
  decide (c.toNat = 9 ∨ c.toNat = 10 ∨ c.toNat = 11 ∨ c.toNat = 12 ∨
    c.toNat = 13 ∨ c.toNat = 32 ∨ c.toNat = 0xa0 ∨ c.toNat = 0x1680 ∨
    (0x2000 ≤ c.toNat ∧ c.toNat ≤ 0x200a) ∨ c.toNat = 0x2028 ∨
    c.toNat = 0x2029 ∨ c.toNat = 0x202f ∨ c.toNat = 0x205f ∨
    c.toNat = 0x3000 ∨ c.toNat = 0xfeff)

/-- JavaScript String.prototype.trim: drop whitespace from both ends. -/
def trimList (l : List Char) : List Char :=
  ((l.dropWhile jsWhitespace).reverse.dropWhile jsWhitespace).reverse

/-- Control characters replaced by a newline in extractTextFromProtobuf:
the ranges x00-x08, x0B, x0C, x0E-x1F. -/
def isCtrlReplaced (c : Char) : Bool :=
  decide (c.toNat ≤ 8 ∨ c.toNat = 0x0b ∨ c.toNat = 0x0c ∨
    (0x0e ≤ c.toNat ∧ c.toNat ≤ 0x1f))

/-- The protobuf marker alphabet of isGarbageLine: asterisk, the letters
J, g, G, comma, whitespace, digits, hyphen, period. -/
def markerChar (c : Char) : Bool :=
  c == '*' || c == 'J' || c == 'g' || c == 'G' || c == ',' ||
  jsWhitespace c || decide (48 ≤ c.toNat ∧ c.toNat ≤ 57) ||
  c == '-' || c == '.'

/-- The broad printable set kept when computing the clean fraction of a line:
ASCII printable plus the Unicode ranges listed in the source regex. -/
def printableChar (c : Char) : Bool :=
  decide ((0x20 ≤ c.toNat ∧ c.toNat ≤ 0x7e) ∨
    (0xa0 ≤ c.toNat ∧ c.toNat ≤ 0x24f) ∨
    (0x1e00 ≤ c.toNat ∧ c.toNat ≤ 0x1eff) ∨
    (0x2000 ≤ c.toNat ∧ c.toNat ≤ 0x206f) ∨
    (0x2600 ≤ c.toNat ∧ c.toNat ≤ 0x27bf) ∨
    (0xfe00 ≤ c.toNat ∧ c.toNat ≤ 0xfe0f) ∨
    (0x1f300 ≤ c.toNat ∧ c.toNat ≤ 0x1f9ff))

/-- isGarbageLine from apple-notes-db.ts: a line is protobuf garbage when it
is shorter than 3 characters, or consists solely of marker characters, or its
fraction of printable characters falls below 0.98 (lines shorter than 10) or
0.90 (other lines). -/
def isGarbageLine (line : List Char) : Bool :=
  if line.length < 3 then true
  else if line.all markerChar then true
  else
    let cleanLen := (line.filter printableChar).length
    if line.length < 10 then decide (100 * cleanLen < 98 * line.length)
    else decide (10 * cleanLen < 9 * line.length)

/-- Claim-side formulation of the garbage classifier: the line is shorter
than 3 characters, or consists solely of marker-alphabet characters, or the
fraction of its characters in the broad printable set is below 0.98 for
lines shorter than 10 characters and below 0.90 for longer lines. -/
def garbageLineSpec (line : List Char) : Prop :=
  line.length < 3 ∨
  (∀ c ∈ line, markerChar c = true) ∨
  ((line.filter printableChar).length : ℚ) / (line.length : ℚ) <
    (if line.length < 10 then (98 : ℚ) / 100 else (90 : ℚ) / 100)

/-- The line preprocessing of extractTextFromProtobuf: replace binary control
characters by newlines, remove Unicode replacement characters, split on
newlines, trim each line and drop empty lines. -/
def preprocessLines (s : List Char) : List (List Char) :=
  let replaced := s.map (fun c => if isCtrlReplaced c then '\n' else c)
  let cleaned := replaced.filter (fun c => decide (c.toNat ≠ 0xfffd))
  ((cleaned.splitOn '\n').map trimList).filter (fun l => !l.isEmpty)

/-- The scanning loop of extractTextFromProtobuf: keep non-garbage lines,
counting consecutive garbage lines and stopping as soon as the count
reaches 3. -/
def extractGoodLines : Nat → List (List Char) → List (List Char)
  | _, [] => []
  | cnt, l :: ls =>
    if isGarbageLine l then
      if 3 ≤ cnt + 1 then [] else extractGoodLines (cnt + 1) ls
    else
      l :: extractGoodLines 0 ls

/-- extractTextFromProtobuf from apple-notes-db.ts, applied to the decoded
text of the decompressed buffer. -/
def extractTextFromProtobuf (s : List Char) : List Char :=
  trimList (List.intercalate ['\n'] (extractGoodLines 0 (preprocessLines s)))

/-- Index of the first window of three consecutive garbage-classified lines,
if any. This is the declarative formulation of the cutoff used by the
specification. -/
def findGGG : List (List Char) → Option Nat
  | a :: b :: c :: rest =>
    if isGarbageLine a && isGarbageLine b && isGarbageLine c then some 0
    else (findGGG (b :: c :: rest)).map (fun n => n + 1)
  | _ => none

/-- Cut position of the scan described by the specification: everything from
the third line of the first three-garbage-line run onward is discarded. -/
def extractCut (ls : List (List Char)) : Nat :=
  ((findGGG ls).map (fun n => n + 2)).getD ls.length

/-- The kept lines as described by the specification: every non-garbage line
before the cutoff, in original order. -/
def extractKeptSpec (ls : List (List Char)) : List (List Char) :=
  (ls.take (extractCut ls)).filter (fun l => !isGarbageLine l)

/-- JavaScript slice with clamped nonnegative indices: the characters from
position s (inclusive) to position e (exclusive). -/
def sliceList (s e : Nat) (l : List Char) : List Char :=
  (l.take e).drop s

/-- The regex search for a sentence terminator followed by whitespace: index
of the first period, exclamation or question mark directly followed by a
whitespace character, if any. -/
def findSentenceEnd : List Char → Option Nat
  | c1 :: c2 :: rest =>
    if (c1 == '.' || c1 == '!' || c1 == '?') && jsWhitespace c2 then some 0
    else (findSentenceEnd (c2 :: rest)).map (fun n => n + 1)
  | _ => none

/-- End position of the window taken by one iteration of the chunkText loop:
up to maxChunkSize characters from the cursor, shrunk to just after a
sentence boundary found in the last 200 characters when not at the end of
the text. -/
def chunkWindowEnd (m : Nat) (text : List Char) (start : Nat) : Nat :=
  if min (start + m) text.length < text.length then
    match findSentenceEnd (sliceList (max (min (start + m) text.length - 200) start)
        (min (start + m) text.length) text) with
    | some i => max (min (start + m) text.length - 200) start + i + 2
    | none => min (start + m) text.length
  else min (start + m) text.length

/-- Next cursor position after a chunkText loop iteration whose window ended
at e: back off by the overlap, unless that would not advance the cursor, in
which case move to e. -/
def chunkIterNext (o : Nat) (e start : Nat) : Nat :=
  if e - o ≤ start then e else e - o

/-- The while loop of chunkText, with explicit fuel: none means the fuel ran
out with the loop still running. -/
def chunkLoop (m o : Nat) (text : List Char) :
    Nat → Nat → List (List Char) → Option (List (List Char))
  | 0, _, _ => none
  | fuel + 1, start, acc =>
    if start < text.length then
      let e := chunkWindowEnd m text start
      let chunk := trimList (sliceList start e text)
      let acc1 := if chunk.isEmpty then acc else acc ++ [chunk]
      if text.length ≤ e then some acc1
      else chunkLoop m o text fuel (chunkIterNext o e start) acc1
    else some acc

/-- chunkText from text-chunker.ts: empty or all-whitespace text gives no
chunks, text no longer than maxChunkSize is returned whole, and longer text
goes through the chunking loop. The loop is run with enough fuel for any
configuration that makes forward progress. -/
def chunkText (m o : Nat) (text : List Char) : List (List Char) :=
  if (trimList text).isEmpty then []
  else if text.length ≤ m then [text]
  else (chunkLoop m o text (text.length + 1) 0 []).getD []

/-- The two-colon separator used to build identity keys in
searchAndCombineResults. -/
def sepColons : List Char := ':' :: ':' :: []

/-- Identity key of a result record in processResults: the title and the
content joined by two colons. -/
def rrfKey (it : List Char × List Char) : List Char :=
  it.1 ++ sepColons ++ it.2

/-- Lookup in the insertion-ordered score map, with 0 for a missing key,
modelling scores.get(key) with the or-zero default. -/
def scoresGet : List (List Char × ℚ) → List Char → ℚ
  | [], _ => 0
  | (k0, v0) :: rest, k => if k0 = k then v0 else scoresGet rest k

/-- JavaScript Map.set: update an existing key in place, keeping its
position, or append a new key at the end. -/
def scoresSet : List (List Char × ℚ) → List Char → ℚ → List (List Char × ℚ)
  | [], k, v => [(k, v)]
  | (k0, v0) :: rest, k, v =>
    if k0 = k then (k0, v) :: rest else (k0, v0) :: scoresSet rest k v

/-- The forEach of processResults: each result at zero-based index idx adds
1 / (60 + startRank + idx) to the score of its identity key. The rank
argument carries startRank + idx. -/
def processResultsAux :
    List (List Char × ℚ) → Nat → List (List Char × List Char) → List (List Char × ℚ)
  | scores, _, [] => scores
  | scores, rank, it :: rest =>
    processResultsAux
      (scoresSet scores (rrfKey it) (scoresGet scores (rrfKey it) + 1 / (60 + (rank : ℚ))))
      (rank + 1) rest

/-- processResults from searchAndCombineResults, acting on the shared score
map. -/
def processResults (results : List (List Char × List Char)) (startRank : Nat)
    (scores : List (List Char × ℚ)) : List (List Char × ℚ) :=
  processResultsAux scores startRank results

/-- The score map after processing the vector results and then the lexical
results, both with startRank 0, starting from an empty map. -/
def fuseScores (vec lex : List (List Char × List Char)) : List (List Char × ℚ) :=
  processResults lex 0 (processResults vec 0 [])

/-- The comparator of the fused sort: the JavaScript comparator b - a keeps
a before b exactly when the score of a is at least the score of b, and is
stable on ties. -/
def rrfLe (a b : List Char × ℚ) : Bool := decide (b.2 ≤ a.2)

/-- The score map entries sorted by total contribution descending, ties kept
in first-encountered order (JavaScript Array.prototype.sort is stable). -/
def sortedFused (vec lex : List (List Char × List Char)) : List (List Char × ℚ) :=
  List.mergeSort (fuseScores vec lex) rrfLe

/-- The top limit entries of the fused ranking. -/
def fusedTop (vec lex : List (List Char × List Char)) (limit : Nat) :
    List (List Char × ℚ) :=
  (sortedFused vec lex).take limit

/-- Whether the first list is an initial segment of the second. -/
def leadsWith : List Char → List Char → Bool
  | [], _ => true
  | _ :: _, [] => false
  | a :: as, b :: bs => a == b && leadsWith as bs

/-- JavaScript String.prototype.split with a non-empty separator: scan left
to right, cutting at each separator occurrence and continuing after it. The
fuel argument only makes the recursion structural; one unit per character is
always enough. -/
def splitOnSepF (sep : List Char) : Nat → List Char → List (List Char)
  | 0, _ => []
  | _ + 1, [] => [[]]
  | fuel + 1, c :: rest =>
    if leadsWith sep (c :: rest) && !sep.isEmpty then
      [] :: splitOnSepF sep fuel (List.drop (sep.length - 1) rest)
    else
      match splitOnSepF sep fuel rest with
      | [] => [[c]]
      | h :: t => (c :: h) :: t

/-- JavaScript String.prototype.split, run with adequate fuel. -/
def splitOnSep (sep l : List Char) : List (List Char) :=
  splitOnSepF sep (l.length + 1) l

/-- Reconstruction of a result pair from an identity key: split on the two
colons and take the first two segments, an absent segment becoming the empty
string. -/
def recoverPair (key : List Char) : List Char × List Char :=
  let parts := splitOnSep sepColons key
  (parts.getD 0 [], parts.getD 1 [])

/-- The pure core of searchAndCombineResults: fuse the two ranked lists with
reciprocal rank fusion, sort descending, truncate to limit and reconstruct
pairs from the keys. -/
def searchAndCombineResults (vec lex : List (List Char × List Char)) (limit : Nat) :
    List (List Char × List Char) :=
  (fusedTop vec lex limit).map (fun kv => recoverPair kv.1)

/-- Specification-side total contribution of one source list to one key: the
sum of 1 / (60 + rank) over the positions holding that key. -/
def rrfSum (key : List Char) : Nat → List (List Char × List Char) → ℚ
  | _, [] => 0
  | r, it :: rest =>
    (if rrfKey it = key then 1 / (60 + (r : ℚ)) else 0) + rrfSum key (r + 1) rest

/-- parseNoteContent from apple-notes-db.ts, parameterized by the pako
decompressor (none models a thrown decompression error) and the lossy UTF-8
byte decoder: absent data gives the empty string, a buffer starting with the
gzip magic bytes is decompressed and run through the protobuf text extractor
with failures mapped to the empty string by the try-catch, and any other
buffer is decoded directly. -/
def parseNoteContent (ungzip : List Nat → Option (List Nat))
    (decodeUtf8 : List Nat → List Char) (data : Option (List Nat)) : List Char :=
  match data with
  | none => []
  | some buffer =>
    if buffer.head? = some 0x1f ∧ buffer[1]? = some 0x8b then
      match ungzip buffer with
      | some d => extractTextFromProtobuf (decodeUtf8 d)
      | none => []
    else decodeUtf8 buffer

/-- A note as consumed by indexNotes: its title and its extracted content. -/
structure NoteRec where
  title : List Char
  content : List Char

/-- The per-note body of the indexNotes loop: chunk the content, and fall
back to a single record carrying the title as content when no chunks came
out. -/
def noteChunkRecords (m o : Nat) (note : NoteRec) : List (List Char × List Char) :=
  let contentChunks := chunkText m o note.content
  if contentChunks.isEmpty then [(note.title, note.title)]
  else contentChunks.map (fun c => (note.title, c))

/-- indexNotes from index.ts: every note with a truthy title contributes its
chunk records, in order. -/
def indexNotes (m o : Nat) (notes : List NoteRec) : List (List Char × List Char) :=
  ((notes.filter (fun n => !n.title.isEmpty)).map (noteChunkRecords m o)).flatten

example : isGarbageLine ("ab".data) = true := by decide
example : isGarbageLine ("This is prose text.".data) = false := by decide
example : isGarbageLine ("*G, 12-3.".data) = true := by decide
example : ((1 : ℚ) / 60 + 1 / 61) = 121 / 3660 := by norm_num
example : trimList (" a ".data) = "a".data := by decide
example : preprocessLines ("ab\ncd".data) = ["ab".data, "cd".data] := by decide
example :
    extractTextFromProtobuf ("Hello there friend.\nab\ncd\nef\nMore text here.".data) =
      "Hello there friend.".data := by decide
example : chunkText 500 50 ("Hello world".data) = ["Hello world".data] := by decide
example : chunkText 500 50 ("".data) = [] := by decide
example : chunkText 500 50 (" a ".data) = [" a ".data] := by decide
example :
    chunkText 5 1 ("aaaa aaaa aaaa".data) =
      ["aaaa".data, "aaaa".data, "a aaa".data, "aa".data] := by decide
example : chunkLoop 0 0 ("abc".data) 4 0 [] = none := by decide
example : splitOnSep sepColons ("a::b::c".data) = ["a".data, "b".data, "c".data] := by
  decide
example : recoverPair (rrfKey ("T".data, "x::y".data)) = ("T".data, "x".data) := by
  decide
example :
    scoresGet (fuseScores [(['A'], ['a'])] [(['B'], ['b'])]) (rrfKey (['A'], ['a'])) =
      1 / 60 := by
  norm_num [fuseScores, processResults, processResultsAux, scoresSet, scoresGet,
    rrfKey, sepColons]
example : chunkIterNext 0 (chunkWindowEnd 0 ("abc".data) 0) 0 = 0 := by decide
example :
    chunkText 10 3 ("First one. Second two. Third three.".data) =
      ["First one.".data, "ne.".data, "e.".data, "Second two".data, "two.".data,
        "o.".data, "Third thre".data, "hree.".data] := by decide

/-- C4: parseNoteContent is total and never throws: absent input yields the
empty string; a buffer starting with the gzip magic bytes 0x1F 0x8B is
decompressed and its decoded text run through the readable-text extractor,
a decompression failure yielding the empty string instead of an error; any
other buffer is decoded directly. -/
theorem parseNoteContent_total (ungzip : List Nat → Option (List Nat))
    (decodeUtf8 : List Nat → List Char) :
    parseNoteContent ungzip decodeUtf8 none = [] ∧
    (∀ buf d, buf.head? = some 0x1f → buf[1]? = some 0x8b → ungzip buf = some d →
      parseNoteContent ungzip decodeUtf8 (some buf) =
        extractTextFromProtobuf (decodeUtf8 d)) ∧
    (∀ buf, buf.head? = some 0x1f → buf[1]? = some 0x8b → ungzip buf = none →
      parseNoteContent ungzip decodeUtf8 (some buf) = []) ∧
    (∀ buf, ¬(buf.head? = some 0x1f ∧ buf[1]? = some 0x8b) →
      parseNoteContent ungzip decodeUtf8 (some buf) = decodeUtf8 buf) := by
  refine ⟨rfl, ?_, ?_, ?_⟩
  · intro buf d h1 h2 h3
    simp [parseNoteContent, h1, h2, h3]
  · intro buf h1 h2 h3
    simp [parseNoteContent, h1, h2, h3]
  · intro buf h
    simp [parseNoteContent, h]

/-- Witness for C4 at a concrete gzip-prefixed buffer and decompressor. -/
theorem parseNoteContent_total_witness :
    parseNoteContent (fun _ => some [104, 105]) (fun bs => bs.map Char.ofNat)
        (some [0x1f, 0x8b]) =
      extractTextFromProtobuf (([104, 105]).map Char.ofNat) :=
  (parseNoteContent_total (fun _ => some [104, 105]) (fun bs => bs.map Char.ofNat)).2.1
    [0x1f, 0x8b] [104, 105] rfl rfl rfl

/-- Counterexample for C8 as stated: a short non-blank text with surrounding
whitespace is returned whole, not trimmed. -/
theorem chunkText_untrimmed_counterexample :
    chunkText 500 50 (" a ".data) = [" a ".data] ∧
    chunkText 500 50 (" a ".data) ≠ [trimList (" a ".data)] := by decide

/-- C8 (amended): empty or all-whitespace text yields the empty sequence,
and any other text no longer than maxChunkSize yields a single-element
sequence containing the text unchanged (not trimmed). -/
theorem chunkText_short_text (m o : Nat) (text : List Char) :
    ((trimList text).isEmpty = true → chunkText m o text = []) ∧
    ((trimList text).isEmpty = false → text.length ≤ m →
      chunkText m o text = [text]) := by
  constructor
  · intro h
    simp [chunkText, h]
  · intro h1 h2
    simp [chunkText, h1, h2]

/-- Witness for C8 at the documented concrete inputs. -/
theorem chunkText_short_text_witness :
    chunkText 500 50 ("Hello world".data) = ["Hello world".data] ∧
    chunkText 500 50 ("".data) = [] :=
  ⟨(chunkText_short_text 500 50 ("Hello world".data)).2 (by decide) (by decide),
   (chunkText_short_text 500 50 ("".data)).1 (by decide)⟩

/-- C9: a note whose content yields no chunks (in particular absent raw
content, which decodes to the empty string) contributes exactly one chunk
record whose content is the note title, and no note ever contributes an
empty record set. -/
theorem indexNotes_empty_content_fallback :
    (∀ m o, chunkText m o [] = []) ∧
    (∀ ungzip decodeUtf8, parseNoteContent ungzip decodeUtf8 none = []) ∧
    (∀ m o note, chunkText m o note.content = [] →
      noteChunkRecords m o note = [(note.title, note.title)]) ∧
    (∀ m o note, noteChunkRecords m o note ≠ []) ∧
    (∀ m o notes, indexNotes m o notes =
      ((notes.filter (fun n => !n.title.isEmpty)).map (noteChunkRecords m o)).flatten) := by
  refine ⟨?_, fun _ _ => rfl, ?_, ?_, fun _ _ _ => rfl⟩
  · intro m o
    simp [chunkText, trimList]
  · intro m o note h
    simp [noteChunkRecords, h]
  · intro m o note
    unfold noteChunkRecords
    rcases h : chunkText m o note.content with _ | ⟨c, cs⟩ <;> simp

/-- Witness for C9 at a concrete note with empty content. -/
theorem indexNotes_empty_content_fallback_witness :
    noteChunkRecords 1000 100 (NoteRec.mk ("My note".data) []) =
      [("My note".data, "My note".data)] :=
  indexNotes_empty_content_fallback.2.2.1 1000 100 (NoteRec.mk ("My note".data) [])
    (by decide)

/-- A found sentence boundary lies at least two characters inside the
searched text. -/
theorem findSentenceEnd_add_two_le :
    ∀ (l : List Char) (i : Nat), findSentenceEnd l = some i → i + 2 ≤ l.length
  | [], i, h => by simp [findSentenceEnd] at h
  | [c], i, h => by simp [findSentenceEnd] at h
  | c1 :: c2 :: rest, i, h => by
    by_cases hc : ((c1 == '.' || c1 == '!' || c1 == '?') && jsWhitespace c2) = true
    · simp only [findSentenceEnd, if_pos hc, Option.some.injEq] at h
      simp [← h]
    · simp only [findSentenceEnd, if_neg hc, Option.map_eq_some'] at h
      obtain ⟨j, hj, hji⟩ := h
      have := findSentenceEnd_add_two_le (c2 :: rest) j hj
      simp only [List.length_cons] at this ⊢
      omega

/-- Trimming does not lengthen a string. -/
theorem trimList_length_le (l : List Char) : (trimList l).length ≤ l.length := by
  unfold trimList
  calc ((l.dropWhile jsWhitespace).reverse.dropWhile jsWhitespace).reverse.length
      = ((l.dropWhile jsWhitespace).reverse.dropWhile jsWhitespace).length := by
        rw [List.length_reverse]
    _ ≤ (l.dropWhile jsWhitespace).reverse.length :=
        (List.dropWhile_sublist jsWhitespace).length_le
    _ = (l.dropWhile jsWhitespace).length := by rw [List.length_reverse]
    _ ≤ l.length := (List.dropWhile_sublist jsWhitespace).length_le

/-- A slice is no longer than the index distance. -/
theorem sliceList_length_le (s e : Nat) (l : List Char) :
    (sliceList s e l).length ≤ e - s := by
  unfold sliceList
  rw [List.length_drop, List.length_take]
  omega

/-- The window of one loop iteration ends at most maxChunkSize characters
past the cursor. -/
theorem chunkWindowEnd_le_add (m : Nat) (text : List Char) (start : Nat) :
    chunkWindowEnd m text start ≤ start + m := by
  unfold chunkWindowEnd
  split
  · split
    · rename_i i heq
      have hb := findSentenceEnd_add_two_le _ _ heq
      have hslice : (sliceList (max (min (start + m) text.length - 200) start)
          (min (start + m) text.length) text).length ≤
            min (start + m) text.length -
              max (min (start + m) text.length - 200) start :=
        sliceList_length_le _ _ _
      omega
    · omega
  · omega

/-- With a positive maxChunkSize, the window of an in-progress iteration ends
strictly past the cursor. -/
theorem chunkWindowEnd_gt (m : Nat) (text : List Char) (start : Nat)
    (hm : 1 ≤ m) (h : start < text.length) : start < chunkWindowEnd m text start := by
  unfold chunkWindowEnd
  split
  · split
    · omega
    · omega
  · omega

/-- A cursor strictly below the window end moves strictly forward. -/
theorem chunkIterNext_gt (o e start : Nat) (he : start < e) :
    start < chunkIterNext o e start := by
  unfold chunkIterNext
  split
  · exact he
  · omega

/-- Every chunk accumulated by the loop is bounded by maxChunkSize, provided
this holds of the accumulator. -/
theorem chunkLoop_length_bound (m o : Nat) (text : List Char) :
    ∀ (fuel start : Nat) (acc out : List (List Char)),
      (∀ c ∈ acc, c.length ≤ m) →
      chunkLoop m o text fuel start acc = some out →
      ∀ c ∈ out, c.length ≤ m := by
  intro fuel
  induction fuel with
  | zero =>
    intro start acc out hacc h
    simp [chunkLoop] at h
  | succ f ih =>
    intro start acc out hacc h
    rw [chunkLoop] at h
    by_cases hs : start < text.length
    · simp only [if_pos hs] at h
      have hchunk : (trimList (sliceList start (chunkWindowEnd m text start) text)).length ≤ m := by
        have h1 := trimList_length_le (sliceList start (chunkWindowEnd m text start) text)
        have h2 := sliceList_length_le start (chunkWindowEnd m text start) text
        have h3 := chunkWindowEnd_le_add m text start
        omega
      have hacc1 : ∀ c ∈ (if (trimList (sliceList start (chunkWindowEnd m text start) text)).isEmpty
          then acc
          else acc ++ [trimList (sliceList start (chunkWindowEnd m text start) text)]),
          c.length ≤ m := by
        by_cases hemp : (trimList (sliceList start (chunkWindowEnd m text start) text)).isEmpty
        · simpa [hemp] using hacc
        · simp only [hemp, if_neg, Bool.false_eq_true, not_false_iff, List.mem_append,
            List.mem_singleton]
          intro c hc
          rcases hc with hc | hc
          · exact hacc c hc
          · subst hc
            exact hchunk
      by_cases hfin : text.length ≤ chunkWindowEnd m text start
      · simp only [if_pos hfin, Option.some.injEq] at h
        subst h
        exact hacc1
      · simp only [if_neg hfin] at h
        exact ih _ _ _ hacc1 h
    · simp only [if_neg hs, Option.some.injEq] at h
      subst h
      exact hacc

/-- With a positive maxChunkSize the loop finishes before running out of
fuel, for any overlap: one unit of fuel per remaining character suffices. -/
theorem chunkLoop_isSome (m o : Nat) (text : List Char) (hm : 1 ≤ m) :
    ∀ (fuel start : Nat) (acc : List (List Char)),
      text.length - start < fuel →
      (chunkLoop m o text fuel start acc).isSome = true := by
  intro fuel
  induction fuel with
  | zero =>
    intro start acc h
    omega
  | succ f ih =>
    intro start acc hfuel
    rw [chunkLoop]
    by_cases hs : start < text.length
    · simp only [if_pos hs]
      by_cases hfin : text.length ≤ chunkWindowEnd m text start
      · simp [hfin]
      · simp only [if_neg hfin]
        apply ih
        have h1 : start < chunkWindowEnd m text start := chunkWindowEnd_gt m text start hm hs
        have h2 : start < chunkIterNext o (chunkWindowEnd m text start) start :=
          chunkIterNext_gt o (chunkWindowEnd m text start) start h1
        omega
    · simp [hs]

/-- Counterexample for C3 as stated: with maxChunkSize 0 and overlap 0 on a
non-blank three-character text the loop is entered, the cursor does not
advance on the first iteration, and the loop never finishes even with the
fuel that suffices for every progressing configuration. -/
theorem chunkText_nontermination_counterexample :
    0 < ("abc".data).length ∧
    chunkIterNext 0 (chunkWindowEnd 0 ("abc".data) 0) 0 = 0 ∧
    chunkLoop 0 0 ("abc".data) (("abc".data).length + 1) 0 [] = none := by decide

/-- C3 (amended): for every configuration with positive maxChunkSize and any
overlap, the cursor strictly increases on every loop iteration, and hence
the chunking loop terminates on every input text. -/
theorem chunkText_cursor_progress :
    (∀ (m o : Nat) (text : List Char) (start : Nat), 1 ≤ m → start < text.length →
      start < chunkIterNext o (chunkWindowEnd m text start) start) ∧
    (∀ (m o : Nat) (text : List Char), 1 ≤ m →
      (chunkLoop m o text (text.length + 1) 0 []).isSome = true) := by
  constructor
  · intro m o text start hm hs
    exact chunkIterNext_gt o (chunkWindowEnd m text start) start
      (chunkWindowEnd_gt m text start hm hs)
  · intro m o text hm
    exact chunkLoop_isSome m o text hm (text.length + 1) 0 [] (by omega)

/-- Witness for C3 at a concrete configuration and text. -/
theorem chunkText_cursor_progress_witness :
    0 < chunkIterNext 0 (chunkWindowEnd 1 ("ab".data) 0) 0 ∧
    (chunkLoop 1 0 ("ab".data) (("ab".data).length + 1) 0 []).isSome = true :=
  ⟨chunkText_cursor_progress.1 1 0 ("ab".data) 0 (by decide) (by decide),
   chunkText_cursor_progress.2 1 0 ("ab".data) (by decide)⟩

/-- C5: with a positive maxChunkSize and a smaller overlap, every emitted
chunk is at most maxChunkSize characters long, and any non-blank text no
longer than maxChunkSize comes back as a single chunk whose length equals
the source length exactly. -/
theorem chunkText_length_bound (m o : Nat) (text : List Char) (hm : 0 < m)
    (ho : o < m) :
    (∀ c ∈ chunkText m o text, c.length ≤ m) ∧
    ((trimList text).isEmpty = false → text.length ≤ m →
      ∃ c, chunkText m o text = [c] ∧ c.length = text.length) := by
  constructor
  · intro c hc
    unfold chunkText at hc
    by_cases h1 : (trimList text).isEmpty
    · simp [h1] at hc
    · simp only [h1, Bool.false_eq_true, if_neg, not_false_iff] at hc
      by_cases h2 : text.length ≤ m
      · simp only [if_pos h2, List.mem_singleton] at hc
        subst hc
        exact h2
      · simp only [if_neg h2] at hc
        rcases hloop : chunkLoop m o text (text.length + 1) 0 [] with _ | out
        · rw [hloop] at hc
          simp at hc
        · rw [hloop] at hc
          simp only [Option.getD_some] at hc
          exact chunkLoop_length_bound m o text (text.length + 1) 0 [] out
            (by simp) hloop c hc
  · intro h1 h2
    refine ⟨text, ?_, rfl⟩
    simp [chunkText, h1, h2]

/-- Witness for C5 at a concrete configuration and short text. -/
theorem chunkText_length_bound_witness :
    ∃ c, chunkText 500 50 ("Hello world".data) = [c] ∧
      c.length = ("Hello world".data).length :=
  (chunkText_length_bound 500 50 ("Hello world".data) (by decide) (by decide)).2
    (by decide) (by decide)

/-- A strict comparison of natural fractions equals the corresponding scaled
integer comparison. -/
theorem natFrac_lt_iff (a b p q : Nat) (hb : 0 < b) (hq : 0 < q) :
    ((a : ℚ) / (b : ℚ) < (p : ℚ) / (q : ℚ)) ↔ q * a < p * b := by
  rw [div_lt_div_iff₀ (by exact_mod_cast hb) (by exact_mod_cast hq)]
  rw [mul_comm (a : ℚ) (q : ℚ)]
  exact_mod_cast Iff.rfl

/-- C7: for every non-empty line, the classifier marks it garbage exactly
when it is shorter than 3 characters, or consists solely of marker-alphabet
characters, or its printable fraction is below the length-dependent
threshold: 0.98 for lines shorter than 10 characters and 0.90 for longer
lines. -/
theorem isGarbageLine_spec (line : List Char) (h : line ≠ []) :
    isGarbageLine line = true ↔ garbageLineSpec line := by
  have hlen : 0 < line.length := List.length_pos.mpr h
  unfold isGarbageLine garbageLineSpec
  by_cases h3 : line.length < 3
  · simp [h3]
  · simp only [h3, if_false, iff_false, false_or]
    by_cases hall : line.all markerChar
    · simp only [if_pos hall, true_iff]
      left
      exact fun c hc => (List.all_eq_true.mp hall) c hc
    · have hall2 : ¬∀ c ∈ line, markerChar c = true := fun hc =>
        hall (List.all_eq_true.mpr hc)
      simp only [if_neg hall, hall2, false_or]
      by_cases h10 : line.length < 10
      · simp only [if_pos h10, decide_eq_true_eq]
        rw [show (98 : ℚ) = ((98 : Nat) : ℚ) by norm_num,
          show (100 : ℚ) = ((100 : Nat) : ℚ) by norm_num,
          natFrac_lt_iff _ _ _ _ hlen (by norm_num)]
      · simp only [if_neg h10, decide_eq_true_eq]
        rw [show (90 : ℚ) = ((90 : Nat) : ℚ) by norm_num,
          show (100 : ℚ) = ((100 : Nat) : ℚ) by norm_num,
          natFrac_lt_iff _ _ _ _ hlen (by norm_num)]
        omega

/-- Witness for C7 at a concrete line that is too short. -/
theorem isGarbageLine_spec_witness : garbageLineSpec ("ab".data) :=
  (isGarbageLine_spec ("ab".data) (by decide)).mp (by decide)

/-- Reading the score map after a set: the written key holds the written
value, every other key is unchanged. -/
theorem scoresGet_set :
    ∀ (s : List (List Char × ℚ)) (k : List Char) (v : ℚ) (key : List Char),
      scoresGet (scoresSet s k v) key = if k = key then v else scoresGet s key := by
  intro s
  induction s with
  | nil =>
    intro k v key
    simp [scoresSet, scoresGet]
  | cons p rest ih =>
    rcases p with ⟨k0, v0⟩
    intro k v key
    by_cases h0 : k0 = k
    · subst h0
      by_cases h1 : k0 = key <;> simp [scoresSet, scoresGet, h1]
    · simp only [scoresSet, if_neg h0, scoresGet]
      by_cases h1 : k0 = key
      · have h2 : ¬k = key := fun hk => h0 (h1.trans hk.symm)
        simp [h1, h2]
      · simp [h1, ih]

/-- Processing a result list adds exactly the reciprocal-rank contributions
of that list to every key. -/
theorem processResultsAux_get (key : List Char) :
    ∀ (results : List (List Char × List Char)) (scores : List (List Char × ℚ))
      (rank : Nat),
      scoresGet (processResultsAux scores rank results) key =
        scoresGet scores key + rrfSum key rank results := by
  intro results
  induction results with
  | nil =>
    intro scores rank
    simp [processResultsAux, rrfSum]
  | cons it rest ih =>
    intro scores rank
    simp only [processResultsAux, rrfSum]
    rw [ih, scoresGet_set]
    by_cases hk : rrfKey it = key
    · simp [hk]
      ring
    · simp only [if_neg hk]
      ring

/-- C2: the fused score of every identity key is the sum over both source
lists of the contributions 1 / (60 + idx) at the zero-based positions
holding that key; in particular, for vector list A, B, C and lexical list
C, A, D the key of A accumulates 1/60 + 1/61 and the key of C accumulates
1/62 + 1/60. -/
theorem searchAndCombineResults_rrf_scores :
    (∀ (vec lex : List (List Char × List Char)) (key : List Char),
      scoresGet (fuseScores vec lex) key = rrfSum key 0 vec + rrfSum key 0 lex) ∧
    scoresGet
        (fuseScores [(['A'], ['a']), (['B'], ['b']), (['C'], ['c'])]
          [(['C'], ['c']), (['A'], ['a']), (['D'], ['d'])])
        (rrfKey (['A'], ['a'])) = 1 / 60 + 1 / 61 ∧
    scoresGet
        (fuseScores [(['A'], ['a']), (['B'], ['b']), (['C'], ['c'])]
          [(['C'], ['c']), (['A'], ['a']), (['D'], ['d'])])
        (rrfKey (['C'], ['c'])) = 1 / 62 + 1 / 60 := by
  have hgen : ∀ (vec lex : List (List Char × List Char)) (key : List Char),
      scoresGet (fuseScores vec lex) key = rrfSum key 0 vec + rrfSum key 0 lex := by
    intro vec lex key
    unfold fuseScores processResults
    rw [processResultsAux_get, processResultsAux_get]
    simp [scoresGet]
  refine ⟨hgen, ?_, ?_⟩
  · rw [hgen]
    simp +decide [rrfSum, rrfKey, sepColons]
    norm_num
  · rw [hgen]
    simp +decide [rrfSum, rrfKey, sepColons]
    norm_num

/-- Setting a key either leaves the key list unchanged (existing key) or
appends the new key at the end. -/
theorem scoresSet_keys (k : List Char) (v : ℚ) :
    ∀ s : List (List Char × ℚ), (scoresSet s k v).map Prod.fst =
      if k ∈ s.map Prod.fst then s.map Prod.fst else s.map Prod.fst ++ [k]
  | [] => by simp [scoresSet]
  | (k0, v0) :: rest => by
    by_cases h0 : k0 = k
    · subst h0
      simp [scoresSet]
    · have hne : ¬k = k0 := fun h => h0 h.symm
      simp only [scoresSet, if_neg h0, List.map_cons]
      rw [scoresSet_keys k v rest]
      by_cases h1 : k ∈ rest.map Prod.fst <;> simp [h1, hne, List.mem_cons]

/-- Setting a key preserves distinctness of the key list. -/
theorem scoresSet_keys_nodup (s : List (List Char × ℚ)) (k : List Char) (v : ℚ)
    (h : (s.map Prod.fst).Nodup) : ((scoresSet s k v).map Prod.fst).Nodup := by
  rw [scoresSet_keys]
  split
  · exact h
  · rename_i hmem
    simp [List.nodup_append, h, hmem]

/-- Processing a result list preserves distinctness of the key list. -/
theorem processResultsAux_keys_nodup :
    ∀ (results : List (List Char × List Char)) (scores : List (List Char × ℚ))
      (rank : Nat), (scores.map Prod.fst).Nodup →
      ((processResultsAux scores rank results).map Prod.fst).Nodup := by
  intro results
  induction results with
  | nil =>
    intro scores rank h
    simpa [processResultsAux] using h
  | cons it rest ih =>
    intro scores rank h
    simp only [processResultsAux]
    exact ih _ _ (scoresSet_keys_nodup _ _ _ h)

/-- The fused score map never holds two entries with the same key. -/
theorem fuseScores_keys_nodup (vec lex : List (List Char × List Char)) :
    ((fuseScores vec lex).map Prod.fst).Nodup := by
  unfold fuseScores processResults
  exact processResultsAux_keys_nodup _ _ _ (processResultsAux_keys_nodup _ _ _ (by simp))

/-- C6: the fused output holds at most limit entries, its identity keys are
pairwise distinct, it is ordered by total contribution descending, ties keep
their first-encountered order from the merge, and the returned pairs are the
reconstructions of the top keys in that order. -/
theorem searchAndCombineResults_ranking (vec lex : List (List Char × List Char))
    (limit : Nat) :
    (searchAndCombineResults vec lex limit).length ≤ limit ∧
    ((fusedTop vec lex limit).map Prod.fst).Nodup ∧
    (fusedTop vec lex limit).Pairwise (fun a b => b.2 ≤ a.2) ∧
    (∀ a b : List Char × ℚ, a.2 = b.2 → [a, b].Sublist (fuseScores vec lex) →
      [a, b].Sublist (sortedFused vec lex)) ∧
    searchAndCombineResults vec lex limit =
      (fusedTop vec lex limit).map (fun kv => recoverPair kv.1) := by
  have htrans : ∀ a b c : List Char × ℚ, rrfLe a b → rrfLe b c → rrfLe a c := by
    intro a b c hab hbc
    simp only [rrfLe, decide_eq_true_eq] at *
    exact le_trans hbc hab
  have htotal : ∀ a b : List Char × ℚ, rrfLe a b || rrfLe b a := by
    intro a b
    simp only [rrfLe, Bool.or_eq_true, decide_eq_true_eq]
    exact le_total b.2 a.2
  refine ⟨?_, ?_, ?_, ?_, rfl⟩
  · simp only [searchAndCombineResults, List.length_map, fusedTop]
    exact List.length_take_le _ _
  · have h1 : ((fuseScores vec lex).map Prod.fst).Nodup := fuseScores_keys_nodup vec lex
    have hperm : List.Perm ((sortedFused vec lex).map Prod.fst)
        ((fuseScores vec lex).map Prod.fst) :=
      (List.mergeSort_perm (fuseScores vec lex) rrfLe).map Prod.fst
    have h2 : ((sortedFused vec lex).map Prod.fst).Nodup := hperm.nodup_iff.mpr h1
    exact List.Nodup.sublist ((List.take_sublist _ _).map Prod.fst) h2
  · have hs := List.sorted_mergeSort htrans htotal (fuseScores vec lex)
    have hs2 : (sortedFused vec lex).Pairwise (fun a b : List Char × ℚ => b.2 ≤ a.2) := by
      refine hs.imp ?_
      intro a b hab
      simpa [rrfLe] using hab
    exact List.Pairwise.sublist (List.take_sublist _ _) hs2
  · intro a b hab hsub
    refine List.pair_sublist_mergeSort htrans htotal ?_ hsub
    simp [rrfLe, hab]

/-- Witness for C6: two single-item sources with tied scores; the tied
entries stay in merge order in the sorted output. -/
theorem searchAndCombineResults_ranking_witness :
    (searchAndCombineResults [(['A'], ['a'])] [(['B'], ['b'])] 10).length ≤ 10 ∧
    [(rrfKey (['A'], ['a']), (1 : ℚ) / 60), (rrfKey (['B'], ['b']), (1 : ℚ) / 60)].Sublist
      (sortedFused [(['A'], ['a'])] [(['B'], ['b'])]) := by
  have hfs : fuseScores [(['A'], ['a'])] [(['B'], ['b'])] =
      [(rrfKey (['A'], ['a']), (1 : ℚ) / 60), (rrfKey (['B'], ['b']), (1 : ℚ) / 60)] := by
    simp +decide [fuseScores, processResults, processResultsAux, scoresSet, scoresGet,
      rrfKey, sepColons]
  constructor
  · exact (searchAndCombineResults_ranking [(['A'], ['a'])] [(['B'], ['b'])] 10).1
  · refine (searchAndCombineResults_ranking [(['A'], ['a'])] [(['B'], ['b'])] 10).2.2.2.1
      _ _ rfl ?_
    rw [hfs]

/-- C10: the identity key is the concatenation of title, two colons and
content, and reconstruction splits on the two colons keeping the first two
segments; a content holding two colons is truncated at them, and two
distinct records with equal concatenations collide on one key. The final
conjunct shows the whole fused search returning the truncated pair. -/
theorem rrfKey_split_lossy :
    rrfKey ("T".data, "x::y".data) = "T::x::y".data ∧
    recoverPair (rrfKey ("T".data, "x::y".data)) = ("T".data, "x".data) ∧
    ("T".data, "x".data) ≠ (("T".data, "x::y".data) : List Char × List Char) ∧
    rrfKey ("a::b".data, "c".data) = rrfKey ("a".data, "b::c".data) ∧
    (("a::b".data, "c".data) : List Char × List Char) ≠ ("a".data, "b::c".data) ∧
    searchAndCombineResults [("T".data, "x::y".data)] [] 20 = [("T".data, "x".data)] := by
  refine ⟨by decide, by decide, by decide, by decide, by decide, ?_⟩
  have hfs : fuseScores [("T".data, "x::y".data)] [] = [("T::x::y".data, (1 : ℚ) / 60)] := by
    simp +decide [fuseScores, processResults, processResultsAux, scoresSet, scoresGet,
      rrfKey, sepColons]
  simp only [searchAndCombineResults, fusedTop, sortedFused, hfs, List.mergeSort_singleton]
  decide

/-- A window of three garbage lines cannot start at a non-garbage head, so
the first-window index just shifts. -/
theorem findGGG_cons_not :
    ∀ (a : List Char) (ls : List (List Char)), isGarbageLine a = false →
      findGGG (a :: ls) = (findGGG ls).map (fun n => n + 1)
  | _, [], _ => rfl
  | _, [_], _ => rfl
  | a, b :: c :: rest, ha => by
    have h1 : (isGarbageLine a && isGarbageLine b && isGarbageLine c) = false := by
      simp [ha]
    simp [findGGG, h1]

/-- A window of three garbage lines cannot overlap a non-garbage second
line, so the first-window index shifts by two. -/
theorem findGGG_cons_cons_not :
    ∀ (a b : List Char) (ls : List (List Char)), isGarbageLine b = false →
      findGGG (a :: b :: ls) = (findGGG ls).map (fun n => n + 2)
  | _, _, [], _ => rfl
  | a, b, c :: rest, hb => by
    have h1 : (isGarbageLine a && isGarbageLine b && isGarbageLine c) = false := by
      simp [hb]
    simp only [findGGG, h1, Bool.false_eq_true, if_false]
    rw [findGGG_cons_not b (c :: rest) hb]
    cases hf : findGGG (c :: rest) with
    | none => simp
    | some k =>
      simp [hf]

/-- The specification keeps a non-garbage head line and continues. -/
theorem extractKeptSpec_cons_not (a : List Char) (ls : List (List Char))
    (ha : isGarbageLine a = false) :
    extractKeptSpec (a :: ls) = a :: extractKeptSpec ls := by
  unfold extractKeptSpec extractCut
  rw [findGGG_cons_not a ls ha]
  cases hf : findGGG ls with
  | none => simp [ha]
  | some k =>
    simp only [Option.map_map, Option.map_some', Option.getD_some, Function.comp]
    rw [show k + 1 + 2 = k + 2 + 1 from by omega, List.take_succ_cons]
    simp [ha]

/-- The specification drops a garbage head line followed by a kept line and
continues after the kept line. -/
theorem extractKeptSpec_garbage_keep (a b : List Char) (ls : List (List Char))
    (ha : isGarbageLine a = true) (hb : isGarbageLine b = false) :
    extractKeptSpec (a :: b :: ls) = b :: extractKeptSpec ls := by
  unfold extractKeptSpec extractCut
  rw [findGGG_cons_cons_not a b ls hb]
  cases hf : findGGG ls with
  | none => simp [ha, hb]
  | some k =>
    simp only [Option.map_map, Option.map_some', Option.getD_some, Function.comp]
    rw [show k + 2 + 2 = k + 2 + 1 + 1 from by omega, List.take_succ_cons,
      List.take_succ_cons]
    simp [ha, hb]

/-- The specification drops two garbage lines followed by a kept line and
continues after the kept line. -/
theorem extractKeptSpec_garbage2_keep (a b c : List Char) (ls : List (List Char))
    (ha : isGarbageLine a = true) (hb : isGarbageLine b = true)
    (hc : isGarbageLine c = false) :
    extractKeptSpec (a :: b :: c :: ls) = c :: extractKeptSpec ls := by
  unfold extractKeptSpec extractCut
  have h1 : (isGarbageLine a && isGarbageLine b && isGarbageLine c) = false := by
    simp [hc]
  simp only [findGGG, h1, Bool.false_eq_true, if_false]
  rw [findGGG_cons_cons_not b c ls hc]
  cases hf : findGGG ls with
  | none => simp [ha, hb, hc]
  | some k =>
    simp only [Option.map_map, Option.map_some', Option.getD_some, Function.comp]
    rw [show k + 2 + 1 + 2 = k + 2 + 1 + 1 + 1 from by omega, List.take_succ_cons,
      List.take_succ_cons, List.take_succ_cons]
    simp [ha, hb, hc]

/-- The specification discards everything from a window of three garbage
lines on. -/
theorem extractKeptSpec_ggg (a b c : List Char) (ls : List (List Char))
    (ha : isGarbageLine a = true) (hb : isGarbageLine b = true)
    (hc : isGarbageLine c = true) :
    extractKeptSpec (a :: b :: c :: ls) = [] := by
  have h1 : (isGarbageLine a && isGarbageLine b && isGarbageLine c) = true := by
    simp [ha, hb, hc]
  unfold extractKeptSpec extractCut
  rw [show findGGG (a :: b :: c :: ls) = some 0 from by simp [findGGG, h1]]
  simp [ha, hb]

/-- The scanning loop of the extractor computes exactly the lines described
by the specification: every non-garbage line before the first run of three
consecutive garbage lines. -/
theorem extractGoodLines_eq_spec :
    (ls : List (List Char)) → extractGoodLines 0 ls = extractKeptSpec ls
  | [] => by
    simp [extractGoodLines, extractKeptSpec, extractCut, findGGG]
  | a :: ls1 => by
    cases hga : isGarbageLine a with
    | false =>
      rw [extractKeptSpec_cons_not a ls1 hga]
      simp only [extractGoodLines, hga, Bool.false_eq_true, if_false]
      rw [extractGoodLines_eq_spec ls1]
    | true =>
      rcases ls1 with _ | ⟨b, ls2⟩
      · simp [extractGoodLines, hga, extractKeptSpec, extractCut, findGGG]
      · cases hgb : isGarbageLine b with
        | false =>
          rw [extractKeptSpec_garbage_keep a b ls2 hga hgb]
          simp only [extractGoodLines, hga, hgb, Bool.false_eq_true, if_true, if_false]
          rw [extractGoodLines_eq_spec ls2]
          simp
        | true =>
          rcases ls2 with _ | ⟨c, ls3⟩
          · simp [extractGoodLines, hga, hgb, extractKeptSpec, extractCut, findGGG]
          · cases hgc : isGarbageLine c with
            | false =>
              rw [extractKeptSpec_garbage2_keep a b c ls3 hga hgb hgc]
              simp only [extractGoodLines, hga, hgb, hgc, Bool.false_eq_true,
                if_true, if_false]
              rw [extractGoodLines_eq_spec ls3]
              simp
            | true =>
              rw [extractKeptSpec_ggg a b c ls3 hga hgb hgc]
              simp [extractGoodLines, hga, hgb, hgc]
termination_by ls => ls.length

/-- C1: the readable-text extractor keeps every non-garbage line in original
order, resetting the consecutive-garbage counter on each kept line, and
stops permanently at the first run of three consecutive garbage lines; for
an input of five prose lines followed by four lines shorter than three
characters the output is exactly the five prose lines joined in order. -/
theorem extractTextFromProtobuf_spec :
    (∀ ls, extractGoodLines 0 ls = extractKeptSpec ls) ∧
    (∀ s, extractTextFromProtobuf s =
      trimList (List.intercalate ['\n'] (extractKeptSpec (preprocessLines s)))) ∧
    extractTextFromProtobuf
        (("Line one of real prose text.\nLine two of real prose text.\nLine three of real prose.\nLine four of real prose text.\nLine five of real prose text.\nab\nxy\npq\nzz").data) =
      ("Line one of real prose text.\nLine two of real prose text.\nLine three of real prose.\nLine four of real prose text.\nLine five of real prose text.").data := by
  refine ⟨extractGoodLines_eq_spec, ?_, by decide⟩
  intro s
  unfold extractTextFromProtobuf
  rw [extractGoodLines_eq_spec]
